import Mathlib

/-!
Verification development for the RAG file-search service.

The Lean definitions below are a shallow embedding of the Python sources:

* auth_client.py      — token verification against the remote auth service
* auth_dependency.py  — identity-field probing and the 401 rejection path
* file_utils.py       — tag extraction, tag-list JSON (de)serialization
* database.py         — the two tables (file_uploads, user_storage)
* gemini_client.py    — the upload poll loop of GeminiFileSearchClient.upload_file
* main.py             — the upload and prompt request handlers

External effects (HTTP calls, the Gemini backend, the clock) are passed in as
explicit oracle arguments; database sessions become explicit state passing, and
each db.commit() appends the then-current state to a list of committed states.
Python floats for file sizes are modelled as rationals (the only arithmetic
performed on them — division by 1024 and addition — is exact for the file sizes
involved).  Strings are modelled over Lean characters; where the Python regex
layer is involved the embedding covers the ASCII fragment of `\w` and `lower()`.
-/

namespace RagService

/-- JSON-like values as decoded from HTTP responses: the fragment relevant to
the auth service payloads (null, booleans, integer numbers, strings, objects). -/
inductive JValue where
  | jnull
  | jbool (b : Bool)
  | jnum (n : Int)
  | jstr (s : String)
  | jobj (fields : List (String × JValue))

/-- Python equality (==) between an optional looked-up value (none when the key
is absent: x.get(k) is None) and a comparison literal.  Booleans are ints in
Python, so numbers and booleans compare numerically (1 == True is True); None
compares equal to nothing here. -/
def pyEq : Option JValue → JValue → Bool
  | some (.jstr s), .jstr t => s == t
  | some (.jbool a), .jbool b => a == b
  | some (.jnum n), .jbool b => n == (if b then (1 : Int) else 0)
  | some (.jbool a), .jnum n => (if a then (1 : Int) else 0) == n
  | some (.jnum n), .jnum m => n == m
  | _, _ => false

/-- The validity test of AuthClient.verify_token (auth_client.py line 27):
verify_result.get("valid") == "true" or verify_result.get("valid") == True. -/
def is_valid_flag (flag : Option JValue) : Bool :=
  pyEq flag (.jstr "true") || pyEq flag (.jbool true)

/-- AuthClient.verify_token (auth_client.py lines 24-38) given the verify
endpoint's HTTP status, the value under its "valid" key, and the payload the
subsequent me-endpoint fetch would deliver (none when that fetch fails).
Returns the identity payload handed back (none on verification failure) paired
with whether the me-endpoint identity fetch was performed at all. -/
def verify_token (statusCode : Nat) (flag : Option JValue) (me : Option JValue) :
    Option JValue × Bool :=
  if statusCode = 200 then
    if is_valid_flag flag then (me, true) else (none, false)
  else (none, false)

/-- A row of the file_uploads table (database.py lines 26-37).  upload_time is
represented by insertion order: rows are appended, so later rows are the more
recently created ones. -/
structure FileRow where
  id : Nat
  user_id : String
  file_name : String
  project_name : String
  file_size_kb : ℚ
  tags : String
  file_content : String
  file_search_store_name : Option String
deriving DecidableEq

/-- A row of the user_storage table (database.py lines 40-46); last_updated is
not modelled (no claim mentions it). -/
structure StorageRow where
  user_id : String
  total_storage_kb : ℚ
deriving DecidableEq

/-- The database state: both tables, rows in insertion order. -/
structure DB where
  files : List FileRow
  storage : List StorageRow
deriving DecidableEq

/-- Sum of file_size_kb over a tenant's file_uploads rows. -/
def sumSizes (db : DB) (u : String) : ℚ :=
  ((db.files.filter (fun r => r.user_id == u)).map (fun r => r.file_size_kb)).sum

/-- The tenant's user_storage total, 0 when the row does not exist. -/
def totalOf (db : DB) (u : String) : ℚ :=
  match db.storage.find? (fun r => r.user_id == u) with
  | some r => r.total_storage_kb
  | none => 0

/-- The storage-accounting invariant of the specification: the tenant's
user_storage total equals the sum of its file_uploads sizes. -/
def storageInvariant (db : DB) (u : String) : Prop :=
  totalOf db u = sumSizes db u

/-- The store-name lookup shared by both handlers (main.py lines 230-235 and
369-374): query file_uploads filtered on the tenant and a non-null store name
and take .first() — the first matching row in row order, with no ORDER BY. -/
def existing_store_name (db : DB) (u : String) : Option String :=
  match (db.files.filter (fun r => r.user_id == u && r.file_search_store_name.isSome)).head? with
  | some r => r.file_search_store_name
  | none => none

/-- Modelled from the claim wording of C5: the most recent (latest-created)
non-null store name among the tenant's records. -/
def most_recent_store_name (db : DB) (u : String) : Option String :=
  match (db.files.filter (fun r => r.user_id == u && r.file_search_store_name.isSome)).getLast? with
  | some r => r.file_search_store_name
  | none => none

/-- Side effects on the remote backend observed during one request. -/
structure Effects where
  storeCreates : Nat
  remoteUploads : Nat
  searches : Nat
deriving DecidableEq

/-- Result of the upload handler. -/
inductive UploadResult where
  | ok (fileId : Nat) (totalKb : ℚ)
  | err (code : Nat)
deriving DecidableEq

/-- Outcome of one run of the upload handler: HTTP result, final database
state, the database states committed along the way (one entry per
db.commit()), and the remote side effects. -/
structure UploadOutcome where
  result : UploadResult
  db : DB
  committed : List DB
  effects : Effects
deriving DecidableEq

/-- file_size_bytes / 1024.0 (main.py line 207); exact over the rationals. -/
def file_size_kb_of (sizeBytes : Nat) : ℚ := (sizeBytes : ℚ) / 1024

/-- str.endswith for the extension check (main.py line 198). -/
def pyEndsWith (s : String) (suffix : String) : Bool :=
  suffix.data.isSuffixOf s.data

/-- filename.rsplit(".", 1)[0] (main.py line 256): everything before the last
dot, or the whole name when it has no dot. -/
def project_name_of (fname : String) : String :=
  if '.' ∈ fname.data then
    String.mk (((fname.data.reverse.dropWhile (fun c => c != '.')).drop 1).reverse)
  else fname

/-- Lowercase ASCII letter, the character class of the tag regex [a-z]. -/
def isLowerAlpha (c : Char) : Bool := 'a' ≤ c && c ≤ 'z'

/-- Word character of the regex word boundary (ASCII fragment of Python's
backslash-w): letters, digits, underscore. -/
def isWordChar (c : Char) : Bool := c.isAlphanum || c == '_'

/-- Emit the accumulated word-character run (held reversed) as a regex match:
re.findall of word-boundary-delimited [a-z]{3,} returns exactly the maximal
word-character runs that consist solely of a-z and are at least 3 long —
shorter runs fail the quantifier and runs containing a digit or underscore
offer no interior word boundary. -/
def emitRun (acc : List Char) : List String :=
  if 3 ≤ acc.length && acc.all isLowerAlpha then [String.mk acc.reverse] else []

/-- Scan for maximal word-character runs, accumulating the current run in
reverse (file_utils.py line 15). -/
def findallWords : List Char → List Char → List String
  | [], acc => emitRun acc
  | c :: cs, acc =>
    if isWordChar c then findallWords cs (c :: acc)
    else emitRun acc ++ findallWords cs []

/-- The fixed stop-word set (file_utils.py lines 18-24). -/
def stop_words : List String :=
  ["the", "a", "an", "and", "or", "but", "in", "on", "at", "to", "for",
   "of", "with", "by", "from", "as", "is", "was", "are", "were", "been",
   "be", "have", "has", "had", "do", "does", "did", "will", "would",
   "should", "could", "may", "might", "must", "can", "this", "that",
   "these", "those", "it", "its", "they", "them", "their", "there"]

/-- One dict-counter update, word_freq[word] = word_freq.get(word, 0) + 1:
an existing key keeps its position (Python dicts preserve insertion order),
a new key is appended, so key order is first-encounter order. -/
def countWord : List (String × Nat) → String → List (String × Nat)
  | [], w => [(w, 1)]
  | (k, n) :: rest, w =>
    if k = w then (k, n + 1) :: rest else (k, n) :: countWord rest w

/-- The frequency scan of file_utils.py lines 27-30: tokenize the lowercased
content, then count each word that is not a stop word and longer than 3. -/
def word_freq (content : String) : List (String × Nat) :=
  (findallWords (content.data.map Char.toLower) []).foldl
    (fun freq word =>
      if word ∉ stop_words ∧ 3 < word.length then countWord freq word else freq) []

/-- Stable descending insertion by count: an element moves left past strictly
smaller counts only, so equal counts keep their relative order — the behavior
of Python's stable sorted(..., key=count, reverse=True). -/
def insertByCount (p : String × Nat) : List (String × Nat) → List (String × Nat)
  | [] => [p]
  | q :: rest => if p.2 < q.2 then q :: insertByCount p rest else p :: q :: rest

/-- sorted(word_freq.items(), key=count, reverse=True) (file_utils.py line 33). -/
def sortByCountDesc (l : List (String × Nat)) : List (String × Nat) :=
  l.foldr insertByCount []

/-- extract_tags_from_text (file_utils.py lines 6-36): the first max_tags keys
of the count-sorted frequency table. -/
def extract_tags_from_text (content : String) (max_tags : Nat) : List String :=
  ((sortByCountDesc (word_freq content)).map Prod.fst).take max_tags

/-- Frequency of a word in the content, read off the frequency table. -/
def freqOf (content : String) (w : String) : Nat :=
  match (word_freq content).find? (fun p => p.1 == w) with
  | some p => p.2
  | none => 0

/-- Hex digit character as emitted by json.dumps escapes (lowercase). -/
def hexDigit (n : Nat) : Char := Char.ofNat (if n < 10 then 48 + n else 87 + n)

/-- Four-digit lowercase hex rendering of n, as in a JSON backslash-u escape. -/
def hex4 (n : Nat) : List Char :=
  [hexDigit (n / 4096 % 16), hexDigit (n / 256 % 16), hexDigit (n / 16 % 16),
   hexDigit (n % 16)]

/-- json.dumps character encoding with its default ensure_ascii=True: quote
and backslash get two-character escapes, the five named control characters
their short escapes, every other character outside the printable ASCII range
0x20-0x7e a backslash-u escape (a surrogate pair of escapes beyond 0xFFFF),
and printable ASCII stays literal. -/
def encodeChar (c : Char) : List Char :=
  if c = '"' then ['\\', '"']
  else if c = '\\' then ['\\', '\\']
  else if c.toNat = 8 then ['\\', 'b']
  else if c.toNat = 9 then ['\\', 't']
  else if c.toNat = 10 then ['\\', 'n']
  else if c.toNat = 12 then ['\\', 'f']
  else if c.toNat = 13 then ['\\', 'r']
  else if c.toNat < 32 || 126 < c.toNat then
    if c.toNat < 65536 then '\\' :: 'u' :: hex4 c.toNat
    else
      ('\\' :: 'u' :: hex4 (55296 + (c.toNat - 65536) / 1024)) ++
      ('\\' :: 'u' :: hex4 (56320 + (c.toNat - 65536) % 1024))
  else [c]

/-- One JSON string literal: quote, escaped characters, quote. -/
def encodeString (s : String) : List Char :=
  '"' :: s.data.flatMap encodeChar ++ ['"']

/-- The comma-space separated items of a dumped JSON list (json.dumps default
item separator). -/
def encodeItems : List String → List Char
  | [] => []
  | [s] => encodeString s
  | s :: rest => encodeString s ++ ',' :: ' ' :: encodeItems rest

/-- tags_to_json (file_utils.py lines 39-41): json.dumps(tags). -/
def tags_to_json (tags : List String) : String :=
  String.mk ('[' :: encodeItems tags ++ [']'])

/-- JSON whitespace accepted by json.loads between tokens. -/
def isJsonWs (c : Char) : Bool := c == ' ' || c == '\t' || c == '\n' || c == '\r'

/-- Skip insignificant whitespace. -/
def skipWs (l : List Char) : List Char := l.dropWhile isJsonWs

/-- Value of one hex digit as accepted in a backslash-u escape (json.loads
accepts both cases). -/
def hexVal (c : Char) : Option Nat :=
  if 48 ≤ c.toNat ∧ c.toNat ≤ 57 then some (c.toNat - 48)
  else if 97 ≤ c.toNat ∧ c.toNat ≤ 102 then some (c.toNat - 87)
  else if 65 ≤ c.toNat ∧ c.toNat ≤ 70 then some (c.toNat - 55)
  else none

/-- Prepend a decoded character to a successful parse. -/
def mapCons (c : Char) : Option (List Char × List Char) → Option (List Char × List Char)
  | some (s, r) => some (c :: s, r)
  | none => none

/-- Four hex digits and the value they denote. -/
def parseHex4 : List Char → Option (Nat × List Char)
  | a :: b :: c :: d :: rest =>
    match hexVal a, hexVal b, hexVal c, hexVal d with
    | some ha, some hb, some hc, some hd =>
      some (ha * 4096 + hb * 256 + hc * 16 + hd, rest)
    | _, _, _, _ => none
  | _ => none

/-- A backslash-u escape body: a plain BMP scalar, or a high surrogate that
must be completed by a low-surrogate escape (surrogate recombination, as
json.loads performs).  A lone surrogate escape is rejected here (Python would
keep a lone-surrogate str, which no Lean Char can carry; json.dumps never
emits one, so this lies outside the serializer's image). -/
def parseUEscape (l : List Char) : Option (Char × List Char) :=
  match parseHex4 l with
  | some (n, rest) =>
    if n < 55296 ∨ 57343 < n then some (Char.ofNat n, rest)
    else if n ≤ 56319 then
      match rest with
      | bs :: u2 :: rest2 =>
        if bs = '\\' ∧ u2 = 'u' then
          match parseHex4 rest2 with
          | some (m, rest3) =>
            if 56320 ≤ m ∧ m ≤ 57343 then
              some (Char.ofNat (65536 + (n - 55296) * 1024 + (m - 56320)), rest3)
            else none
          | none => none
        else none
      | _ => none
    else none
  | none => none

/-- One escape sequence after the backslash, as json.loads accepts them. -/
def parseEscape : List Char → Option (Char × List Char)
  | '"' :: rest => some ('"', rest)
  | '\\' :: rest => some ('\\', rest)
  | '/' :: rest => some ('/', rest)
  | 'b' :: rest => some (Char.ofNat 8, rest)
  | 'f' :: rest => some (Char.ofNat 12, rest)
  | 'n' :: rest => some (Char.ofNat 10, rest)
  | 'r' :: rest => some (Char.ofNat 13, rest)
  | 't' :: rest => some (Char.ofNat 9, rest)
  | 'u' :: rest => parseUEscape rest
  | _ => none

/-- The string scanner of json.loads (strict mode), after the opening quote:
literal characters up to the closing quote, raw control characters rejected,
escapes decoded by parseEscape.  The recursion is bounded by a fuel argument
to keep the definition structural; every step consumes at least one input
character, so the callers' fuel of input length + 1 can never be the reason
a parse fails (the round-trip theorems below exhibit the needed fuel
explicitly). -/
def parseStringBody : Nat → List Char → Option (List Char × List Char)
  | 0, _ => none
  | _ + 1, [] => none
  | fuel + 1, c :: rest =>
    if c = '"' then some ([], rest)
    else if c = '\\' then
      match parseEscape rest with
      | some (ch, rest2) => mapCons ch (parseStringBody fuel rest2)
      | none => none
    else if c.toNat < 32 then none
    else mapCons c (parseStringBody fuel rest)

/-- The comma-separated string elements of a JSON array, starting at the
first element.  The recursion is bounded by a fuel argument so that the
definition stays structural; every recursive step consumes at least the
element's two quote characters, so the caller's fuel of input length + 1 can
never run out (and the round-trip theorems instantiate the fuel explicitly). -/
def parseElems : Nat → List Char → Option (List String × List Char)
  | 0, _ => none
  | fuel + 1, l =>
    match l with
    | '"' :: rest =>
      match parseStringBody (rest.length + 1) rest with
      | some (s, r) =>
        match skipWs r with
        | ',' :: r2 =>
          match parseElems fuel (skipWs r2) with
          | some (ts, r3) => some (String.mk s :: ts, r3)
          | none => none
        | ']' :: r2 => some ([String.mk s], r2)
        | _ => none
      | none => none
    | _ => none

/-- json.loads restricted to the payloads the tags column can round-trip: a
JSON array of strings, with surrounding whitespace, consumed to the end of
the input.  Any other input — malformed JSON, or well-formed JSON that is not
an array of strings — parses to none. -/
def parseTagsArray (l : List Char) : Option (List String) :=
  match skipWs l with
  | c :: r =>
    if c = '[' then
      match skipWs r with
      | c2 :: r2 =>
        if c2 = ']' then (if (skipWs r2).isEmpty then some [] else none)
        else
          match parseElems (l.length + 1) (c2 :: r2) with
          | some (ts, r3) => if (skipWs r3).isEmpty then some ts else none
          | none => none
      | [] => none
    else none
  | [] => none

/-- Literal-prefix check used for the keywords true, false, null, NaN,
Infinity accepted by json.loads. -/
def expectChars : List Char → List Char → Option (List Char)
  | [], l => some l
  | p :: ps, c :: l => if c = p then expectChars ps l else none
  | _ :: _, [] => none

/-- Integer part of a JSON number after the optional minus sign:
0, or a nonzero digit followed by digits. -/
def skipIntPart : List Char → Option (List Char)
  | [] => none
  | c :: r =>
    if c = '0' then some r
    else if c.isDigit then some (r.dropWhile Char.isDigit)
    else none

/-- Optional fraction part of a JSON number: a dot followed by at least one
digit, or nothing. -/
def skipFracPart : List Char → Option (List Char)
  | '.' :: c :: r => if c.isDigit then some (r.dropWhile Char.isDigit) else none
  | ['.'] => none
  | l => some l

/-- Optional exponent part of a JSON number: e or E, an optional sign, and at
least one digit — or nothing. -/
def skipExpPart : List Char → Option (List Char)
  | [] => some []
  | c :: r =>
    if c = 'e' ∨ c = 'E' then
      match r with
      | [] => none
      | s :: r2 =>
        if s = '+' ∨ s = '-' then
          match r2 with
          | [] => none
          | d :: r3 => if d.isDigit then some (r3.dropWhile Char.isDigit) else none
        else if s.isDigit then some (r2.dropWhile Char.isDigit)
        else none
    else some (c :: r)

/-- A JSON number after the optional minus sign, per the scanner regex
(-?(0|[1-9]digits))(.digits)?([eE][+-]?digits)? of json.loads. -/
def skipNumber (l : List Char) : Option (List Char) :=
  match skipIntPart l with
  | some r =>
    match skipFracPart r with
    | some r2 => skipExpPart r2
    | none => none
  | none => none

/-- Validates (without materializing) the body of a JSON string after the
opening quote, per json.loads in strict mode: literal characters other than
control characters, the named escapes, and backslash-u with four hex digits.
Unlike parseStringBody this accepts lone surrogate escapes — json.loads
accepts them too (yielding a string this embedding cannot materialize). -/
def skipJsonString : Nat → List Char → Option (List Char)
  | 0, _ => none
  | _ + 1, [] => none
  | fuel + 1, c :: rest =>
    if c = '"' then some rest
    else if c = '\\' then
      match rest with
      | [] => none
      | e :: rest2 =>
        if e = 'u' then
          match rest2 with
          | a :: b :: c2 :: d :: rest3 =>
            match hexVal a, hexVal b, hexVal c2, hexVal d with
            | some _, some _, some _, some _ => skipJsonString fuel rest3
            | _, _, _, _ => none
          | _ => none
        else if e = '"' ∨ e = '\\' ∨ e = '/' ∨ e = 'b' ∨ e = 'f' ∨ e = 'n'
            ∨ e = 'r' ∨ e = 't'
        then skipJsonString fuel rest2
        else none
    else if c.toNat < 32 then none
    else skipJsonString fuel rest

/-- Mode of the JSON syntax validator: a single value, the remaining items of
a non-empty array, or the remaining members of a non-empty object. -/
inductive JMode where
  | value
  | items
  | members

/-- Complete syntax validator for the JSON grammar accepted by json.loads
with default settings (including the constants NaN, Infinity, -Infinity),
returning the input remaining after one value.  The recursion is bounded by a
fuel argument so that the definition stays structural; every recursive call
is preceded by consuming at least one character (the bracket opening a
construct, an element's leading characters, or a separator), so the caller's
fuel of twice the input length plus two can never run out. -/
def skipJson : Nat → JMode → List Char → Option (List Char)
  | 0, _, _ => none
  | fuel + 1, .value, l =>
    match skipWs l with
    | [] => none
    | c :: r =>
      if c = '"' then skipJsonString (r.length + 1) r
      else if c = '{' then
        match skipWs r with
        | '}' :: r2 => some r2
        | _ => skipJson fuel .members (skipWs r)
      else if c = '[' then
        match skipWs r with
        | ']' :: r2 => some r2
        | _ => skipJson fuel .items (skipWs r)
      else if c = 't' then expectChars ['r', 'u', 'e'] r
      else if c = 'f' then expectChars ['a', 'l', 's', 'e'] r
      else if c = 'n' then expectChars ['u', 'l', 'l'] r
      else if c = 'N' then expectChars ['a', 'N'] r
      else if c = 'I' then expectChars ['n', 'f', 'i', 'n', 'i', 't', 'y'] r
      else if c = '-' then
        match r with
        | 'I' :: r2 => expectChars ['n', 'f', 'i', 'n', 'i', 't', 'y'] r2
        | _ => skipNumber r
      else if c.isDigit then skipNumber (c :: r)
      else none
  | fuel + 1, .items, l =>
    match skipJson fuel .value l with
    | some r =>
      match skipWs r with
      | ',' :: r2 => skipJson fuel .items r2
      | ']' :: r2 => some r2
      | _ => none
    | none => none
  | fuel + 1, .members, l =>
    match skipWs l with
    | '"' :: r =>
      match skipJsonString (r.length + 1) r with
      | some r2 =>
        match skipWs r2 with
        | ':' :: r3 =>
          match skipJson fuel .value r3 with
          | some r4 =>
            match skipWs r4 with
            | ',' :: r5 => skipJson fuel .members r5
            | '}' :: r5 => some r5
            | _ => none
          | none => none
        | _ => none
      | none => none
    | _ => none

/-- Whether json.loads accepts the input: one JSON value followed by nothing
but whitespace. -/
def validJson (l : List Char) : Bool :=
  match skipJson (2 * l.length + 2) .value l with
  | some rest => (skipWs rest).isEmpty
  | none => false

/-- What json.loads returns on the input: an array of (Lean-representable)
strings, materialized; some other JSON value, accepted but not materialized
(this also covers a string array containing a lone-surrogate escape, whose
value has no Lean representation); or a raised exception. -/
inductive LoadsResult where
  | strings (ts : List String)
  | other
  | failure
deriving DecidableEq

/-- json.loads as json_to_tags observes it: parseTagsArray materializes the
string-array documents, validJson separates the remaining valid documents
(whose parsed value json_to_tags passes through unchanged) from the raising
ones. -/
def loads (l : List Char) : LoadsResult :=
  match parseTagsArray l with
  | some ts => .strings ts
  | none => if validJson l then .other else .failure

/-- Return value of json_to_tags: a list of tags (covering both a parsed
string array and the [] answered on empty input or parse failure), or the
parsed non-string-array JSON value, which the original code returns
unchanged (its exact value is irrelevant to every claim, so it is not
materialized here). -/
inductive TagsValue where
  | tags (ts : List String)
  | other
deriving DecidableEq

/-- json_to_tags (file_utils.py lines 44-51): an empty string is answered
with [] up front; otherwise the function returns whatever json.loads parses
— the tag list for a string-array document, any other valid document's value
unchanged — and swallows a parse exception into []. -/
def json_to_tags (json_str : String) : TagsValue :=
  if json_str.data.isEmpty then .tags []
  else
    match loads json_str.data with
    | .strings ts => .tags ts
    | .other => .other
    | .failure => .tags []

/-- Status of the background import operation as far as the poll loop reads
it: the done flag and whether an explicit error is set. -/
structure OpState where
  done : Bool
  err : Bool
deriving DecidableEq

/-- Result of one client.operations.get call: a status object, or a raised
exception. -/
inductive Fetch where
  | ok (op : OpState)
  | exn
deriving DecidableEq

/-- max_wait_time (gemini_client.py line 90). -/
def max_wait_time : Nat := 300

/-- check_interval (gemini_client.py line 92). -/
def check_interval : Nat := 2

/-- The poll loop of GeminiFileSearchClient.upload_file (gemini_client.py
lines 105-140), one recursion step per while-iteration.  Arguments: the
status oracle (indexed by refresh number), the store name returned on
success, remaining fuel (the loop carries no fuel; pollLoop_fuel below shows
fuel 151 is never exhausted, which is the termination claim), the current
operation object, wait_time, and the refresh counter.  The result carries
the returned value (some store on success, none on failure) and the total
time slept. -/
def pollLoop (oracle : Nat → Fetch) (store : String) :
    Nat → OpState → Nat → Nat → Option (Option String × Nat)
  | 0, _, _, _ => none
  | fuel + 1, op, wait_time, polls =>
    if op.done then
      some (if op.err then none else some store, wait_time)
    else if max_wait_time ≤ wait_time then
      some (none, wait_time)
    else
      match oracle polls with
      | .ok op2 =>
        if op2.err then some (none, wait_time + check_interval)
        else pollLoop oracle store fuel op2 (wait_time + check_interval) (polls + 1)
      | .exn =>
        if 60 < wait_time + check_interval then some (none, wait_time + check_interval)
        else pollLoop oracle store fuel op (wait_time + check_interval) (polls + 1)

/-- GeminiFileSearchClient.upload_file from the initial operations.get on
(gemini_client.py lines 79-140): an exception on the initial status fetch is
answered with immediate success (lines 82-87, elapsed wait 0); otherwise the
poll loop runs on the fetched status object. -/
def uploadDocument (initialFetch : Fetch) (oracle : Nat → Fetch) (store : String) :
    Option (Option String × Nat) :=
  match initialFetch with
  | .exn => some (some store, 0)
  | .ok op => pollLoop oracle store 151 op 0 0

/-- Insert-or-update of the tenant's user_storage row
(main.py lines 278-287). -/
def upsertStorage : List StorageRow → String → ℚ → List StorageRow
  | [], u, kb => [⟨u, kb⟩]
  | r :: rest, u, kb =>
    if r.user_id = u then ⟨r.user_id, r.total_storage_kb + kb⟩ :: rest
    else r :: upsertStorage rest u kb

/-- The upload handler (main.py lines 185-308).  Oracles: decoded is the
UTF-8 decode of the raw bytes (none on a decode error), newStoreName the name
the backend would assign to a freshly created store, remoteUploadOk whether
the Gemini upload returns a store name.  Validation happens in source order:
extension, size ceiling, decoding — each rejection happens before any remote
call and before any database write.  On the success path the file row is
committed first (line 274) and the storage upsert second (line 289): two
separate commits, both recorded in committed. -/
def upload_file (user_id : String) (filename : String) (sizeBytes : Nat)
    (decoded : Option String) (db : DB) (newStoreName : String)
    (remoteUploadOk : Bool) : UploadOutcome :=
  if ¬ pyEndsWith filename ".txt" then ⟨.err 400, db, [], ⟨0, 0, 0⟩⟩
  else if 102400 < file_size_kb_of sizeBytes then ⟨.err 400, db, [], ⟨0, 0, 0⟩⟩
  else
    match decoded with
    | none => ⟨.err 400, db, [], ⟨0, 0, 0⟩⟩
    | some file_content =>
      let existing := existing_store_name db user_id
      let store := existing.getD newStoreName
      let creates : Nat := if existing.isSome then 0 else 1
      if ¬ remoteUploadOk then ⟨.err 500, db, [], ⟨creates, 1, 0⟩⟩
      else
        let row : FileRow :=
          ⟨db.files.length + 1, user_id, filename, project_name_of filename,
           file_size_kb_of sizeBytes,
           tags_to_json (extract_tags_from_text file_content 10),
           file_content, some store⟩
        let db1 : DB := ⟨db.files ++ [row], db.storage⟩
        let db2 : DB := ⟨db1.files, upsertStorage db1.storage user_id (file_size_kb_of sizeBytes)⟩
        ⟨.ok row.id (totalOf db2 user_id), db2, [db1, db2], ⟨creates, 1, 0⟩⟩

/-- Result of the prompt handler. -/
inductive PromptResult where
  | ok (response : String)
  | err (code : Nat)
deriving DecidableEq

/-- Outcome of one run of the prompt handler. -/
structure PromptOutcome where
  result : PromptResult
  db : DB
  effects : Effects
deriving DecidableEq

/-- The prompt handler (main.py lines 343-434).  Oracles: newStoreName for a
fresh store, uploadOk for the self-heal re-uploads, searchResult the Gemini
answer (none when generation raises).  A tenant with no rows is rejected with
404 before the store lookup, before any remote call and before any write
(lines 358-364).  Otherwise the store is resolved exactly as in the upload
handler, rows whose store name is missing or different are re-uploaded and
rewritten (lines 384-400), and one search is issued. -/
def process_prompt (u : String) (db : DB) (newStoreName : String) (uploadOk : Bool)
    (searchResult : Option String) : PromptOutcome :=
  let files := db.files.filter (fun r => r.user_id == u)
  if files.isEmpty then ⟨.err 404, db, ⟨0, 0, 0⟩⟩
  else
    let existing := existing_store_name db u
    let store := existing.getD newStoreName
    let creates : Nat := if existing.isSome then 0 else 1
    let missing := files.filter (fun f => f.file_search_store_name != some store)
    let db2 : DB :=
      if uploadOk then
        ⟨db.files.map (fun r =>
           if r.user_id == u && r.file_search_store_name != some store then
             ⟨r.id, r.user_id, r.file_name, r.project_name, r.file_size_kb,
              r.tags, r.file_content, some store⟩
           else r), db.storage⟩
      else db
    match searchResult with
    | some t => ⟨.ok t, db2, ⟨creates, missing.length, 1⟩⟩
    | none => ⟨.err 500, db2, ⟨creates, missing.length, 1⟩⟩

/-- Claim C3 counterexample: the claim states that every flag value other than
the boolean true and the string "true" yields failure with no identity fetch;
but the numeric flag 1 — neither of those two values — is accepted as valid
and the identity fetch is performed, because Python's == identifies 1 and
True. -/
theorem C3_counterexample :
    is_valid_flag (some (.jnum 1)) = true
    ∧ verify_token 200 (some (.jnum 1)) (some (.jstr "payload")) = (some (.jstr "payload"), true)
    ∧ JValue.jnum 1 ≠ JValue.jbool true
    ∧ JValue.jnum 1 ≠ JValue.jstr "true" := by
  refine ⟨rfl, rfl, ?_, ?_⟩ <;> intro h <;> cases h

/-- Claim C3 as amended: verify_token treats the validity flag as valid
exactly when it is the boolean true, the string "true", or a number equal
to 1 (Python's == identifies 1 and True); any other value — and any
non-success status — yields failure with no identity fetch. -/
theorem C3_flag_semantics (flag : Option JValue) (statusCode : Nat) (me : Option JValue) :
    (is_valid_flag flag = true ↔
      flag = some (.jbool true) ∨ flag = some (.jstr "true") ∨ flag = some (.jnum 1))
    ∧ (is_valid_flag flag = false → verify_token 200 flag me = (none, false))
    ∧ (statusCode ≠ 200 → verify_token statusCode flag me = (none, false)) := by
  refine ⟨?_, ?_, ?_⟩
  · match flag with
    | none => simp [is_valid_flag, pyEq]
    | some .jnull => simp [is_valid_flag, pyEq]
    | some (.jbool b) => cases b <;> simp [is_valid_flag, pyEq]
    | some (.jnum n) =>
      simp only [is_valid_flag, pyEq, Bool.or_eq_true, beq_iff_eq]
      constructor
      · rintro (h | h)
        · exact absurd h (by simp)
        · simp_all
      · rintro (h | h | h) <;> simp_all
    | some (.jstr s) =>
      simp only [is_valid_flag, pyEq, Bool.or_eq_true, beq_iff_eq]
      constructor
      · rintro (h | h)
        · simp_all
        · exact absurd h (by simp)
      · rintro (h | h | h) <;> simp_all
    | some (.jobj o) => simp [is_valid_flag, pyEq]
  · intro h
    simp [verify_token, h]
  · intro h
    simp [verify_token, h]

/-- Claim C3 witness: the amended theorem applied at a rejected string flag
and at a non-success status. -/
theorem C3_flag_semantics_witness :
    verify_token 200 (some (.jstr "yes")) (some (.jstr "p")) = (none, false)
    ∧ verify_token 500 (some (.jbool true)) (some (.jstr "p")) = (none, false) :=
  ⟨(C3_flag_semantics (some (.jstr "yes")) 200 (some (.jstr "p"))).2.1 rfl,
   (C3_flag_semantics (some (.jbool true)) 500 (some (.jstr "p"))).2.2 (by decide)⟩

/-! Claim C4: upload validation happens before any remote call or write. -/

/-- Claim C4: an upload whose filename does not end in ".txt" or whose size
exceeds the 102400 KB ceiling is answered with a 400 while the database is
left untouched, nothing is committed, no store is created and no remote
upload or search happens. -/
theorem C4_validation_rejects_early (u filename : String) (sizeBytes : Nat)
    (decoded : Option String) (db : DB) (newStore : String) (remoteUploadOk : Bool)
    (h : pyEndsWith filename ".txt" = false ∨ 102400 < file_size_kb_of sizeBytes) :
    upload_file u filename sizeBytes decoded db newStore remoteUploadOk =
      ⟨.err 400, db, [], ⟨0, 0, 0⟩⟩ := by
  rcases h with h | h
  · simp [upload_file, h]
  · by_cases hx : pyEndsWith filename ".txt" <;> simp [upload_file, hx, h]

/-- Claim C4 witness: the theorem applied to a rejected extension. -/
theorem C4_validation_rejects_early_witness :
    upload_file "u1" "a.pdf" 10 (some "x") ⟨[], []⟩ "s" true =
      ⟨.err 400, ⟨[], []⟩, [], ⟨0, 0, 0⟩⟩ :=
  C4_validation_rejects_early "u1" "a.pdf" 10 (some "x") ⟨[], []⟩ "s" true
    (Or.inl (by decide))

/-! Claim C9: the prompt handler on a tenant without documents. -/

/-- Claim C9: a tenant with zero file rows is answered with 404 — not 500 and
not a success — the database is unchanged, and no store creation, remote
upload or search call is made. -/
theorem C9_no_documents (u : String) (db : DB) (newStore : String) (uploadOk : Bool)
    (searchResult : Option String)
    (h : db.files.filter (fun r => r.user_id == u) = []) :
    process_prompt u db newStore uploadOk searchResult = ⟨.err 404, db, ⟨0, 0, 0⟩⟩ := by
  simp [process_prompt, h]

/-- Claim C9 witness: the theorem applied to an empty database. -/
theorem C9_no_documents_witness :
    process_prompt "u1" ⟨[], []⟩ "ns" true (some "resp") = ⟨.err 404, ⟨[], []⟩, ⟨0, 0, 0⟩⟩ :=
  C9_no_documents "u1" ⟨[], []⟩ "ns" true (some "resp") rfl

/-! Claim C5: which store name the handlers pick. -/

/-- A tenant whose two records disagree on the store name: the older row
carries storeA, the newer storeB. -/
def c5db : DB :=
  ⟨[⟨1, "u", "a.txt", "a", 1, "[]", "xa", some "storeA"⟩,
    ⟨2, "u", "b.txt", "b", 1, "[]", "xb", some "storeB"⟩], []⟩

/-- Claim C5 counterexample: the claim states the handlers pick the most
recent non-null store name; on c5db the shared lookup returns the oldest
row's storeA, the most recent non-null store name is storeB, and the prompt
handler's self-heal then rewrites every row to the old storeA — so the most
recently created record's name is not the one chosen. -/
theorem C5_counterexample :
    existing_store_name c5db "u" = some "storeA"
    ∧ most_recent_store_name c5db "u" = some "storeB"
    ∧ existing_store_name c5db "u" ≠ most_recent_store_name c5db "u"
    ∧ (process_prompt "u" c5db "ns" true (some "resp")).db.files.map
        (fun r => r.file_search_store_name) = [some "storeA", some "storeA"] := by
  refine ⟨rfl, rfl, by decide, by decide⟩

/-- Claim C5 as amended: the lookup shared by the upload and prompt handlers
returns the store name of the first record in row (insertion) order with a
non-null store name — not the most recent one — and returns none exactly when
every record of the tenant has a null store name; any returned name does come
from one of the tenant's records. -/
theorem C5_first_non_null (db : DB) (u : String) :
    (existing_store_name db u =
      (db.files.find? (fun r => r.user_id == u && r.file_search_store_name.isSome)).bind
        (fun r => r.file_search_store_name))
    ∧ (existing_store_name db u = none ↔
        ∀ r ∈ db.files, r.user_id = u → r.file_search_store_name = none)
    ∧ (∀ s, existing_store_name db u = some s →
        ∃ r ∈ db.files, r.user_id = u ∧ r.file_search_store_name = some s) := by
  have hhead : ∀ (l : List FileRow) (p : FileRow → Bool), (l.filter p).head? = l.find? p := by
    intro l p
    induction l with
    | nil => rfl
    | cons a t ih => by_cases hp : p a <;> simp [List.filter, List.find?, hp, ih]
  have hbase : existing_store_name db u =
      (db.files.find? (fun r => r.user_id == u && r.file_search_store_name.isSome)).bind
        (fun r => r.file_search_store_name) := by
    rw [existing_store_name, hhead]
    cases db.files.find? (fun r => r.user_id == u && r.file_search_store_name.isSome) <;> rfl
  refine ⟨hbase, ?_, ?_⟩
  · rw [hbase]
    cases hf : db.files.find? (fun r => r.user_id == u && r.file_search_store_name.isSome) with
    | none =>
      rw [List.find?_eq_none] at hf
      constructor
      · intro _ r hr hu
        have h2 := hf r hr
        simp only [Bool.and_eq_true, beq_iff_eq, not_and] at h2
        simpa using h2 hu
      · intro _
        rfl
    | some r =>
      have hmem := List.mem_of_find?_eq_some hf
      have hpred := List.find?_some hf
      simp only [Bool.and_eq_true, beq_iff_eq, Option.isSome_iff_exists] at hpred
      obtain ⟨hu, s, hs⟩ := hpred
      constructor
      · intro hcontra
        have hcontra2 : r.file_search_store_name = none := hcontra
        rw [hs] at hcontra2
        cases hcontra2
      · intro hall
        exact absurd (hall r hmem hu) (by simp [hs])
  · intro s hse
    rw [hbase] at hse
    cases hf : db.files.find? (fun r => r.user_id == u && r.file_search_store_name.isSome) with
    | none => rw [hf] at hse; cases hse
    | some r =>
      rw [hf] at hse
      have hmem := List.mem_of_find?_eq_some hf
      have hpred := List.find?_some hf
      simp only [Bool.and_eq_true, beq_iff_eq] at hpred
      exact ⟨r, hmem, hpred.1, by simpa using hse⟩

/-- Claim C5 witness: the amended theorem applied to c5db, where the first
matching row's storeA is returned and indeed comes from a row of the tenant. -/
theorem C5_first_non_null_witness :
    ∃ r ∈ c5db.files, r.user_id = "u" ∧ r.file_search_store_name = some "storeA" :=
  (C5_first_non_null c5db "u").2.2 "storeA" rfl

/-! Claim C7: behavior when the operation status cannot be determined. -/

/-- Oracle for the C7 counterexample: the first status refresh raises, the
second reports an explicit error. -/
def c7oracle : Nat → Fetch := fun n => if n = 0 then .exn else .ok ⟨false, true⟩

/-- Claim C7 counterexample: the claim states that a status check that cannot
be determined inside the poll loop reports success when the elapsed wait is at
most 60.  Under c7oracle the first status check (elapsed wait 2 ≤ 60) cannot
be determined, yet the loop does not report success at wait 2 — it keeps
polling and ends in failure at wait 4. -/
theorem C7_counterexample :
    pollLoop c7oracle "store1" 151 ⟨false, false⟩ 0 0 = some (none, 4)
    ∧ pollLoop c7oracle "store1" 151 ⟨false, false⟩ 0 0 ≠ some (some "store1", 2) := by
  refine ⟨by decide, by decide⟩

/-- Claim C7 as amended: an undetermined status on the initial fetch reports
success with elapsed wait 0; inside the poll loop an undetermined status check
reports failure when the elapsed wait (after the 2-unit sleep) exceeds 60,
and at 60 or below the loop continues polling with the last known status
instead of reporting anything. -/
theorem C7_undetermined_status (oracle : Nat → Fetch) (store : String) (op : OpState)
    (wait polls fuel : Nat) (h1 : op.done = false) (h2 : wait < 300) :
    uploadDocument .exn oracle store = some (some store, 0)
    ∧ (oracle polls = .exn → 60 < wait + 2 →
        pollLoop oracle store (fuel + 1) op wait polls = some (none, wait + 2))
    ∧ (oracle polls = .exn → wait + 2 ≤ 60 →
        pollLoop oracle store (fuel + 1) op wait polls =
          pollLoop oracle store fuel op (wait + 2) (polls + 1)) := by
  refine ⟨rfl, ?_, ?_⟩
  · intro ho hw
    simp [pollLoop, h1, max_wait_time, check_interval, Nat.not_le.mpr h2, ho, hw]
  · intro ho hw
    simp [pollLoop, h1, max_wait_time, check_interval, Nat.not_le.mpr h2, ho,
      Nat.not_lt.mpr hw]

/-- Claim C7 witness: the amended theorem applied at elapsed wait 100 (failure
past the 60 ceiling) and at elapsed wait 0 (the loop continues). -/
theorem C7_undetermined_status_witness :
    pollLoop (fun _ => Fetch.exn) "s" 8 ⟨false, false⟩ 100 0 = some (none, 102)
    ∧ pollLoop (fun _ => Fetch.exn) "s" 8 ⟨false, false⟩ 0 0 =
        pollLoop (fun _ => Fetch.exn) "s" 7 ⟨false, false⟩ 2 1 :=
  ⟨(C7_undetermined_status (fun _ => Fetch.exn) "s" ⟨false, false⟩ 100 0 7 rfl
      (by decide)).2.1 rfl (by decide),
   (C7_undetermined_status (fun _ => Fetch.exn) "s" ⟨false, false⟩ 0 0 7 rfl
      (by decide)).2.2 rfl (by decide)⟩

/-! Claim C6: the poll loop contract. -/

/-- Fuel sufficiency: with fuel beyond what the 300-unit ceiling can consume,
the poll loop always returns — the loop stops on its own, never because the
fuel runs out.  This is the termination half of C6. -/
theorem pollLoop_fuel (oracle : Nat → Fetch) (store : String) :
    ∀ (fuel : Nat) (op : OpState) (wait polls : Nat), 300 ≤ wait + 2 * fuel →
      (pollLoop oracle store (fuel + 1) op wait polls).isSome = true := by
  intro fuel
  induction fuel with
  | zero =>
    intro op wait polls h
    by_cases hd : op.done
    · simp [pollLoop, hd]
    · have hw : max_wait_time ≤ wait := by simp only [max_wait_time]; omega
      simp [pollLoop, hd, hw]
  | succ fuel ih =>
    intro op wait polls h
    by_cases hd : op.done
    · simp [pollLoop, hd]
    · by_cases hw : max_wait_time ≤ wait
      · simp [pollLoop, hd, hw]
      · cases ho : oracle polls with
        | ok op2 =>
          by_cases he : op2.err
          · simp [pollLoop, hd, hw, ho, he]
          · have hrec := ih op2 (wait + check_interval) (polls + 1)
              (by simp only [check_interval]; omega)
            simpa [pollLoop, hd, hw, ho, he] using hrec
        | exn =>
          by_cases h60 : 60 < wait + check_interval
          · simp [pollLoop, hd, hw, ho, h60]
          · have hrec := ih op (wait + check_interval) (polls + 1)
              (by simp only [check_interval]; omega)
            simpa [pollLoop, hd, hw, ho, h60] using hrec

/-- The total slept time the poll loop reports never exceeds the 300-unit
ceiling, for any oracle, starting from an even elapsed time within the
ceiling. -/
theorem pollLoop_wait_le (oracle : Nat → Fetch) (store : String) :
    ∀ (fuel : Nat) (op : OpState) (wait polls : Nat) (r : Option String) (w : Nat),
      wait % 2 = 0 → wait ≤ 300 →
      pollLoop oracle store fuel op wait polls = some (r, w) → w ≤ 300 := by
  intro fuel
  induction fuel with
  | zero =>
    intro op wait polls r w h1 h2 h
    simp [pollLoop] at h
  | succ fuel ih =>
    intro op wait polls r w h1 h2 h
    by_cases hd : op.done
    · simp [pollLoop, hd] at h
      omega
    · by_cases hw : max_wait_time ≤ wait
      · simp [pollLoop, hd, hw] at h
        omega
      · have hlt : wait < 300 := by
          simp only [max_wait_time] at hw; omega
        cases ho : oracle polls with
        | ok op2 =>
          by_cases he : op2.err
          · simp [pollLoop, hd, hw, ho, he, check_interval] at h
            omega
          · simp only [pollLoop, hd, Bool.false_eq_true, if_false, hw, ho, he,
              check_interval] at h
            exact ih op2 (wait + 2) (polls + 1) r w (by omega) (by omega) h
        | exn =>
          by_cases h60 : 60 < wait + 2
          · simp [pollLoop, hd, hw, ho, check_interval, h60] at h
            omega
          · simp only [pollLoop, hd, Bool.false_eq_true, if_false, hw, ho,
              check_interval, h60] at h
            exact ih op (wait + 2) (polls + 1) r w (by omega) (by omega) h

/-- Against a backend that never completes and never errors, the poll loop
reaches the ceiling and reports a timeout failure at exactly 300 slept
units. -/
theorem pollLoop_timeout (oracle : Nat → Fetch) (store : String)
    (hall : ∀ n, oracle n = .ok ⟨false, false⟩) :
    ∀ (fuel wait polls : Nat), wait % 2 = 0 → wait ≤ 300 → 300 ≤ wait + 2 * fuel →
      pollLoop oracle store (fuel + 1) ⟨false, false⟩ wait polls = some (none, 300) := by
  intro fuel
  induction fuel with
  | zero =>
    intro wait polls h1 h2 h3
    have hw : wait = 300 := by omega
    subst hw
    simp [pollLoop, max_wait_time]
  | succ fuel ih =>
    intro wait polls h1 h2 h3
    by_cases hw : 300 ≤ wait
    · have hweq : wait = 300 := by omega
      subst hweq
      simp [pollLoop, max_wait_time]
    · have hstep : pollLoop oracle store (fuel + 1 + 1) ⟨false, false⟩ wait polls =
          pollLoop oracle store (fuel + 1) ⟨false, false⟩ (wait + 2) (polls + 1) := by
        simp [pollLoop, max_wait_time, hw, hall polls, check_interval]
      rw [hstep]
      exact ih (wait + 2) (polls + 1) (by omega) (by omega) (by omega)

/-- Claim C6: for every status oracle the poll loop started at elapsed time 0
terminates within fuel 151 (the fuel is never the reason it stops); every
total slept time it reports is at most 300; against a backend that never
completes it reports the timeout failure at exactly 300; and an explicit
error reported at any poll makes it fail immediately, right after that
poll's 2-unit sleep. -/
theorem C6_poll_loop_contract (oracle : Nat → Fetch) (store : String) (op : OpState) :
    (pollLoop oracle store 151 op 0 0).isSome = true
    ∧ (∀ r w, pollLoop oracle store 151 op 0 0 = some (r, w) → w ≤ 300)
    ∧ ((∀ n, oracle n = .ok ⟨false, false⟩) → op = ⟨false, false⟩ →
        pollLoop oracle store 151 op 0 0 = some (none, 300))
    ∧ (∀ fuel wait polls st, op.done = false → wait < 300 → oracle polls = .ok ⟨st, true⟩ →
        pollLoop oracle store (fuel + 1) op wait polls = some (none, wait + 2)) := by
  refine ⟨?_, ?_, ?_, ?_⟩
  · exact pollLoop_fuel oracle store 150 op 0 0 (by omega)
  · intro r w hw
    exact pollLoop_wait_le oracle store 151 op 0 0 r w rfl (by omega) hw
  · intro hall hop
    subst hop
    exact pollLoop_timeout oracle store hall 150 0 0 rfl (by omega) (by omega)
  · intro fuel wait polls st hd hlt ho
    have hw : ¬ max_wait_time ≤ wait := by simp only [max_wait_time]; omega
    simp [pollLoop, hd, hw, ho, check_interval]

/-- Claim C6 witness: the contract applied to the never-completing backend. -/
theorem C6_poll_loop_contract_witness :
    pollLoop (fun _ => Fetch.ok ⟨false, false⟩) "s" 151 ⟨false, false⟩ 0 0 =
      some (none, 300) :=
  (C6_poll_loop_contract (fun _ => Fetch.ok ⟨false, false⟩) "s" ⟨false, false⟩).2.2.1
    (fun _ => rfl) rfl

/-! Claim C1: the two table writes of a successful upload. -/

/-- A successful upload of a 1 KB file by tenant u1 into an empty database. -/
def c1outcome : UploadOutcome := upload_file "u1" "a.txt" 1024 (some "hi") ⟨[], []⟩ "s1" true

/-- The file row that upload inserts. -/
def c1row : FileRow := ⟨1, "u1", "a.txt", "a", file_size_kb_of 1024, "[]", "hi", some "s1"⟩

/-- Claim C1 records a code bug: the upload handler commits the FileUpload
insert (main.py line 274) and the UserStorage update (line 289) in two
separate transactions, not one.  On a successful 1 KB upload into an empty
database the handler produces two committed states; in the first the file row
is present while the tenant's total still reads 0, violating the storage
invariant the claim asserts for every committed state (the second, final
state satisfies it). -/
theorem C1_storage_commit_not_atomic :
    c1outcome.committed = [⟨[c1row], []⟩, ⟨[c1row], [⟨"u1", file_size_kb_of 1024⟩]⟩]
    ∧ (⟨[c1row], []⟩ : DB).files ≠ []
    ∧ ¬ storageInvariant ⟨[c1row], []⟩ "u1"
    ∧ storageInvariant ⟨[c1row], [⟨"u1", file_size_kb_of 1024⟩]⟩ "u1" := by
  refine ⟨?_, by simp, ?_, ?_⟩
  · have hext : pyEndsWith "a.txt" ".txt" = true := by decide
    have hsize : ¬ (102400 : ℚ) < file_size_kb_of 1024 := by simp [file_size_kb_of]
    have htags : extract_tags_from_text "hi" 10 = [] := by decide
    have hproj : project_name_of "a.txt" = "a" := by decide
    simp [c1outcome, c1row, upload_file, hext, hsize, existing_store_name, htags,
      tags_to_json, encodeItems, hproj, upsertStorage]
  · simp [storageInvariant, totalOf, sumSizes, c1row, file_size_kb_of]
  · simp [storageInvariant, totalOf, sumSizes, c1row, List.find?]

/-! Claim C8: identity-field probing and the 401 rejection. -/

/-- Every emitted token is an all-lowercase-alphabetic word of length at
least 3. -/
theorem mem_emitRun (acc : List Char) (t : String) (ht : t ∈ emitRun acc) :
    3 ≤ t.length ∧ t.data.all isLowerAlpha = true := by
  unfold emitRun at ht
  by_cases hc : (decide (3 ≤ acc.length) && acc.all isLowerAlpha) = true
  · rw [if_pos hc] at ht
    simp only [List.mem_singleton] at ht
    subst ht
    simp only [Bool.and_eq_true, decide_eq_true_eq] at hc
    refine ⟨?_, ?_⟩
    · show 3 ≤ acc.reverse.length
      simpa using hc.1
    · show acc.reverse.all isLowerAlpha = true
      simpa using hc.2
  · rw [if_neg hc] at ht
    cases ht

/-- Every token the scanner finds is an all-lowercase-alphabetic word of
length at least 3. -/
theorem mem_findallWords :
    ∀ (cs acc : List Char) (t : String), t ∈ findallWords cs acc →
      3 ≤ t.length ∧ t.data.all isLowerAlpha = true := by
  intro cs
  induction cs with
  | nil => intro acc t ht; exact mem_emitRun acc t ht
  | cons c cs ih =>
    intro acc t ht
    unfold findallWords at ht
    by_cases hw : isWordChar c = true
    · rw [if_pos hw] at ht
      exact ih _ t ht
    · rw [if_neg hw] at ht
      rcases List.mem_append.mp ht with hm | hm
      · exact mem_emitRun _ _ hm
      · exact ih _ t hm

/-- A pair in the updated counter comes from the old counter or carries the
counted word as its key. -/
theorem mem_countWord :
    ∀ (l : List (String × Nat)) (w : String) (p : String × Nat),
      p ∈ countWord l w → p ∈ l ∨ p.1 = w := by
  intro l
  induction l with
  | nil =>
    intro w p hp
    simp only [countWord, List.mem_singleton] at hp
    subst hp
    exact Or.inr rfl
  | cons q rest ih =>
    intro w p hp
    obtain ⟨k, n⟩ := q
    unfold countWord at hp
    by_cases hk : k = w
    · rw [if_pos hk] at hp
      rcases List.mem_cons.mp hp with rfl | hm
      · exact Or.inr hk
      · exact Or.inl (List.mem_cons_of_mem _ hm)
    · rw [if_neg hk] at hp
      rcases List.mem_cons.mp hp with rfl | hm
      · exact Or.inl (List.mem_cons_self _ _)
      · rcases ih w p hm with hm2 | hm2
        · exact Or.inl (List.mem_cons_of_mem _ hm2)
        · exact Or.inr hm2

/-- Counting a word keeps the key list unchanged when the key exists and
appends it otherwise: key order is first-encounter order. -/
theorem countWord_keys (l : List (String × Nat)) (w : String) :
    (countWord l w).map Prod.fst =
      if w ∈ l.map Prod.fst then l.map Prod.fst else l.map Prod.fst ++ [w] := by
  induction l with
  | nil => simp [countWord]
  | cons q rest ih =>
    obtain ⟨k, n⟩ := q
    by_cases hk : k = w
    · subst hk
      simp [countWord]
    · simp only [countWord, if_neg hk, List.map_cons]
      rw [ih]
      by_cases hw : w ∈ rest.map Prod.fst
      · rw [if_pos hw, if_pos (by simp [hw])]
      · rw [if_neg hw, if_neg (by simp [hw, Ne.symm hk])]
        rfl

/-- Counting preserves distinctness of the keys. -/
theorem countWord_nodup (l : List (String × Nat)) (w : String)
    (h : ((l.map Prod.fst).Nodup)) : (((countWord l w).map Prod.fst).Nodup) := by
  rw [countWord_keys]
  by_cases hw : w ∈ l.map Prod.fst
  · rwa [if_pos hw]
  · rw [if_neg hw]
    simpa [List.nodup_append, hw] using h

/-- Where a frequency-table entry comes from: either it survived from the
starting table, or its key is one of the scanned words and passed both
filters (not a stop word, longer than 3). -/
theorem word_freq_fold_mem :
    ∀ (ws : List String) (acc : List (String × Nat)) (p : String × Nat),
      p ∈ ws.foldl (fun freq word =>
        if word ∉ stop_words ∧ 3 < word.length then countWord freq word else freq) acc →
      p ∈ acc ∨ (p.1 ∈ ws ∧ p.1 ∉ stop_words ∧ 3 < p.1.length) := by
  intro ws
  induction ws with
  | nil => intro acc p hp; exact Or.inl hp
  | cons w ws ih =>
    intro acc p hp
    simp only [List.foldl_cons] at hp
    rcases ih _ p hp with hm | hm
    · by_cases hc : w ∉ stop_words ∧ 3 < w.length
      · rw [if_pos hc] at hm
        rcases mem_countWord _ _ _ hm with hm2 | hm2
        · exact Or.inl hm2
        · exact Or.inr ⟨by rw [hm2]; exact List.mem_cons_self _ _,
            by rw [hm2]; exact hc.1, by rw [hm2]; exact hc.2⟩
      · rw [if_neg hc] at hm
        exact Or.inl hm
    · exact Or.inr ⟨List.mem_cons_of_mem _ hm.1, hm.2.1, hm.2.2⟩

/-- The frequency fold preserves key distinctness. -/
theorem word_freq_fold_nodup :
    ∀ (ws : List String) (acc : List (String × Nat)),
      ((acc.map Prod.fst).Nodup) →
      (((ws.foldl (fun freq word =>
        if word ∉ stop_words ∧ 3 < word.length then countWord freq word else freq)
          acc).map Prod.fst).Nodup) := by
  intro ws
  induction ws with
  | nil => intro acc h; exact h
  | cons w ws ih =>
    intro acc h
    simp only [List.foldl_cons]
    by_cases hc : w ∉ stop_words ∧ 3 < w.length
    · rw [if_pos hc]
      exact ih _ (countWord_nodup _ _ h)
    · rw [if_neg hc]
      exact ih _ h

/-- Every key of the frequency table is a non-stop-word, lowercase-alphabetic
word of length > 3. -/
theorem word_freq_mem (content : String) (p : String × Nat)
    (hp : p ∈ word_freq content) :
    p.1 ∉ stop_words ∧ 3 < p.1.length ∧ p.1.data.all isLowerAlpha = true := by
  unfold word_freq at hp
  rcases word_freq_fold_mem _ _ _ hp with hm | hm
  · cases hm
  · have halpha := mem_findallWords _ _ _ hm.1
    exact ⟨hm.2.1, hm.2.2, halpha.2⟩

/-- The frequency table has distinct keys. -/
theorem word_freq_nodup (content : String) :
    (((word_freq content).map Prod.fst).Nodup) := by
  unfold word_freq
  exact word_freq_fold_nodup _ [] (by simp)

/-- Looking a member pair up by key in a distinct-key table returns exactly
that pair. -/
theorem find?_key_eq (l : List (String × Nat)) (p : String × Nat)
    (hmem : p ∈ l) (hnd : ((l.map Prod.fst).Nodup)) :
    l.find? (fun q => q.1 == p.1) = some p := by
  induction l with
  | nil => cases hmem
  | cons a rest ih =>
    rcases List.mem_cons.mp hmem with rfl | hmem2
    · simp [List.find?]
    · have hne : ¬ a.1 = p.1 := by
        intro he
        have hkey : p.1 ∈ rest.map Prod.fst := List.mem_map_of_mem _ hmem2
        rw [← he] at hkey
        exact (List.nodup_cons.mp (by simpa using hnd)).1 hkey
      have hb : (a.1 == p.1) = false := by simpa using hne
      simp only [List.find?, hb]
      exact ih hmem2 (List.nodup_cons.mp (by simpa using hnd)).2

/-- Membership in the stable insertion. -/
theorem mem_insertByCount (p q : String × Nat) :
    ∀ l, q ∈ insertByCount p l ↔ q = p ∨ q ∈ l := by
  intro l
  induction l with
  | nil => simp [insertByCount]
  | cons a rest ih =>
    unfold insertByCount
    by_cases hc : p.2 < a.2
    · rw [if_pos hc]
      simp only [List.mem_cons, ih]
      tauto
    · rw [if_neg hc]
      simp only [List.mem_cons]

/-- The stable insertion preserves descending order by count. -/
theorem sorted_insertByCount (p : String × Nat) (l : List (String × Nat))
    (h : l.Pairwise (fun a b => b.2 ≤ a.2)) :
    (insertByCount p l).Pairwise (fun a b => b.2 ≤ a.2) := by
  induction l with
  | nil => simp [insertByCount]
  | cons a rest ih =>
    rcases List.pairwise_cons.mp h with ⟨ha, hrest⟩
    unfold insertByCount
    by_cases hc : p.2 < a.2
    · rw [if_pos hc]
      rw [List.pairwise_cons]
      refine ⟨?_, ih hrest⟩
      intro x hx
      rcases (mem_insertByCount p x rest).mp hx with rfl | hx2
      · omega
      · exact ha x hx2
    · rw [if_neg hc]
      rw [List.pairwise_cons]
      refine ⟨?_, h⟩
      intro x hx
      rcases List.mem_cons.mp hx with rfl | hx2
      · omega
      · have := ha x hx2
        omega

/-- The sort produces a list in non-increasing count order. -/
theorem sorted_sortByCountDesc (l : List (String × Nat)) :
    (sortByCountDesc l).Pairwise (fun a b => b.2 ≤ a.2) := by
  unfold sortByCountDesc
  induction l with
  | nil => simp
  | cons a rest ih =>
    simp only [List.foldr_cons]
    exact sorted_insertByCount a _ ih

/-- The sort neither adds nor drops entries. -/
theorem mem_sortByCountDesc (l : List (String × Nat)) (q : String × Nat) :
    q ∈ sortByCountDesc l ↔ q ∈ l := by
  unfold sortByCountDesc
  induction l with
  | nil => simp
  | cons a rest ih =>
    simp only [List.foldr_cons, mem_insertByCount, List.mem_cons, ih]

/-- Stability of one insertion at every count level: inserting p only adds p
at the front of its own count class, every other count class is untouched. -/
theorem filter_insertByCount (p : String × Nat) (l : List (String × Nat)) (c : Nat) :
    (insertByCount p l).filter (fun q => q.2 == c) =
      if p.2 == c then p :: l.filter (fun q => q.2 == c)
      else l.filter (fun q => q.2 == c) := by
  induction l with
  | nil =>
    by_cases hc : (p.2 == c) = true <;> simp [insertByCount, List.filter, hc]
  | cons a rest ih =>
    unfold insertByCount
    by_cases hlt : p.2 < a.2
    · rw [if_pos hlt]
      by_cases hpc : (p.2 == c) = true
      · have hpc2 : p.2 = c := by simpa using hpc
        have hac : (a.2 == c) = false := by
          have hne : a.2 ≠ c := by omega
          simpa using hne
        simp [List.filter_cons, hac, hpc, ih]
      · have hpc2 : (p.2 == c) = false := by simpa using hpc
        simp [List.filter_cons, hpc2, ih]
    · rw [if_neg hlt]
      by_cases hpc : (p.2 == c) = true
      · simp [List.filter_cons, hpc]
      · have hpc2 : (p.2 == c) = false := by simpa using hpc
        simp [List.filter_cons, hpc2]

/-- Stability of the sort: within each count class the sorted table lists the
entries in their original (first-encounter) order. -/
theorem filter_sortByCountDesc (l : List (String × Nat)) (c : Nat) :
    (sortByCountDesc l).filter (fun q => q.2 == c) = l.filter (fun q => q.2 == c) := by
  unfold sortByCountDesc
  induction l with
  | nil => rfl
  | cons a rest ih =>
    simp only [List.foldr_cons]
    rw [filter_insertByCount]
    by_cases hc : (a.2 == c) = true
    · rw [if_pos hc]
      simp [List.filter_cons, hc, ih]
    · have hc2 : (a.2 == c) = false := by simpa using hc
      rw [if_neg (by simp [hc2])]
      simp [List.filter_cons, hc2, ih]

/-- A table entry's count is what freqOf reads back for its key. -/
theorem freqOf_of_mem (content : String) (p : String × Nat)
    (hp : p ∈ word_freq content) : freqOf content p.1 = p.2 := by
  unfold freqOf
  rw [find?_key_eq _ p hp (word_freq_nodup content)]

/-- Claim C2: the tag extractor returns at most k tags; every tag is a
lowercase alphabetic word of length > 3 that is not a stop word; the result
is the k-prefix of the count-sorted frequency table's keys; tags appear in
non-increasing frequency order; the sort is stable, so ties keep the
frequency table's first-encounter order; and empty input yields the empty
list. -/
theorem C2_tag_extractor (content : String) (k : Nat) :
    (extract_tags_from_text content k).length ≤ k
    ∧ (∀ t ∈ extract_tags_from_text content k,
        t ∉ stop_words ∧ 3 < t.length ∧ t.data.all isLowerAlpha = true)
    ∧ extract_tags_from_text content k =
        ((sortByCountDesc (word_freq content)).map Prod.fst).take k
    ∧ (extract_tags_from_text content k).Pairwise
        (fun a b => freqOf content b ≤ freqOf content a)
    ∧ (∀ c : Nat, (sortByCountDesc (word_freq content)).filter (fun q => q.2 == c) =
        (word_freq content).filter (fun q => q.2 == c))
    ∧ extract_tags_from_text "" k = [] := by
  refine ⟨?_, ?_, rfl, ?_, filter_sortByCountDesc _, ?_⟩
  · unfold extract_tags_from_text
    simp [List.length_take]
  · intro t ht
    unfold extract_tags_from_text at ht
    have ht2 : t ∈ (sortByCountDesc (word_freq content)).map Prod.fst :=
      List.mem_of_mem_take ht
    obtain ⟨p, hp, rfl⟩ := List.mem_map.mp ht2
    exact word_freq_mem content p ((mem_sortByCountDesc _ _).mp hp)
  · have hs2 : (sortByCountDesc (word_freq content)).Pairwise
        (fun a b => freqOf content b.1 ≤ freqOf content a.1) := by
      refine (sorted_sortByCountDesc (word_freq content)).imp_of_mem ?_
      intro a b ha hb hr
      rw [freqOf_of_mem content a ((mem_sortByCountDesc _ _).mp ha),
        freqOf_of_mem content b ((mem_sortByCountDesc _ _).mp hb)]
      exact hr
    have hmap : ((sortByCountDesc (word_freq content)).map Prod.fst).Pairwise
        (fun a b => freqOf content b ≤ freqOf content a) :=
      List.pairwise_map.mpr hs2
    exact hmap.sublist (List.take_sublist k _)
  · simp only [extract_tags_from_text, show sortByCountDesc (word_freq "") = [] from rfl,
      List.map_nil, List.take_nil]

/-- Claim C2 witness: the specification's own example — "alpha beta beta
gamma" with k = 2 gives ["beta", "alpha"]: beta wins on frequency, the
alpha/gamma tie is broken by first encounter. -/
theorem C2_tag_extractor_witness :
    extract_tags_from_text "alpha beta beta gamma" 2 = ["beta", "alpha"]
    ∧ (extract_tags_from_text "alpha beta beta gamma" 2).length ≤ 2
    ∧ ("beta" ∉ stop_words ∧ 3 < ("beta" : String).length
        ∧ ("beta" : String).data.all isLowerAlpha = true) :=
  ⟨by decide, (C2_tag_extractor "alpha beta beta gamma" 2).1,
   (C2_tag_extractor "alpha beta beta gamma" 2).2.1 "beta" (by decide)⟩

/-! Claim C10: tag-list JSON round-trip. -/

/-- Decoding inverts the hex-digit rendering. -/
theorem hexVal_hexDigit : ∀ d : Nat, d < 16 → hexVal (hexDigit d) = some d := by
  decide

/-- Parsing inverts the four-digit hex rendering. -/
theorem parseHex4_hex4 (n : Nat) (h : n < 65536) (rest : List Char) :
    parseHex4 (hex4 n ++ rest) = some (n, rest) := by
  have e1 := hexVal_hexDigit (n / 4096 % 16) (by omega)
  have e2 := hexVal_hexDigit (n / 256 % 16) (by omega)
  have e3 := hexVal_hexDigit (n / 16 % 16) (by omega)
  have e4 := hexVal_hexDigit (n % 16) (by omega)
  have hrec : n / 4096 % 16 * 4096 + n / 256 % 16 * 256 + n / 16 % 16 * 16 + n % 16 = n := by
    omega
  simp only [hex4, List.cons_append, List.nil_append, parseHex4, e1, e2, e3, e4, hrec]

/-- A backslash-u escape carrying a non-surrogate BMP scalar decodes to that
scalar. -/
theorem parseUEscape_bmp (n : Nat) (hn : n < 65536) (hok : n < 55296 ∨ 57343 < n)
    (rest : List Char) :
    parseUEscape (hex4 n ++ rest) = some (Char.ofNat n, rest) := by
  simp only [parseUEscape, parseHex4_hex4 n hn]
  rw [if_pos hok]

/-- A high-surrogate escape followed by a low-surrogate escape decodes to the
combined supplementary scalar. -/
theorem parseUEscape_pair (n m : Nat) (hn1 : 55296 ≤ n) (hn2 : n ≤ 56319)
    (hm1 : 56320 ≤ m) (hm2 : m ≤ 57343) (rest : List Char) :
    parseUEscape (hex4 n ++ ('\\' :: 'u' :: (hex4 m ++ rest))) =
      some (Char.ofNat (65536 + (n - 55296) * 1024 + (m - 56320)), rest) := by
  simp only [parseUEscape, parseHex4_hex4 n (by omega)]
  rw [if_neg (by omega), if_pos (by omega)]
  simp only [reduceIte, parseHex4_hex4 m (by omega), and_self, if_true]
  rw [if_pos (And.intro hm1 hm2)]

/-- A Lean character is never a surrogate and is below 0x110000. -/
theorem char_range (c : Char) : c.toNat < 55296 ∨ (57343 < c.toNat ∧ c.toNat < 1114112) := by
  have he : c.toNat = c.val.toNat := rfl
  have hv := c.valid
  rcases hv with hv | hv
  · left; omega
  · right; omega

/-- The scanner accepts the closing quote. -/
theorem psb_quote (fuel : Nat) (rest : List Char) :
    parseStringBody (fuel + 1) ('"' :: rest) = some ([], rest) := by
  simp [parseStringBody]

/-- The scanner hands a backslash to the escape decoder. -/
theorem psb_escape (fuel : Nat) (rest : List Char) :
    parseStringBody (fuel + 1) ('\\' :: rest) =
      (match parseEscape rest with
       | some (ch, rest2) => mapCons ch (parseStringBody fuel rest2)
       | none => none) := by
  simp [parseStringBody]

/-- The scanner passes a literal (non-quote, non-backslash, non-control)
character through. -/
theorem psb_lit (fuel : Nat) (c : Char) (rest : List Char) (h1 : ¬ c = '"')
    (h2 : ¬ c = '\\') (h3 : ¬ c.toNat < 32) :
    parseStringBody (fuel + 1) (c :: rest) = mapCons c (parseStringBody fuel rest) := by
  simp only [parseStringBody, if_neg h1, if_neg h2, if_neg h3]

/-- A surrogate-pair escape for the character c decodes back to c. -/
theorem psb_encode_pair (fuel : Nat) (rest : List Char) (c : Char) (n m : Nat)
    (hn1 : 55296 ≤ n) (hn2 : n ≤ 56319) (hm1 : 56320 ≤ m) (hm2 : m ≤ 57343)
    (hc : 65536 + (n - 55296) * 1024 + (m - 56320) = c.toNat) :
    parseStringBody (fuel + 1)
        ((('\\' :: 'u' :: hex4 n) ++ ('\\' :: 'u' :: hex4 m)) ++ rest) =
      mapCons c (parseStringBody fuel rest) := by
  rw [List.append_assoc, List.cons_append, List.cons_append, psb_escape,
    List.cons_append, List.cons_append]
  have hu : parseEscape ('u' :: (hex4 n ++ ('\\' :: 'u' :: (hex4 m ++ rest)))) =
      parseUEscape (hex4 n ++ ('\\' :: 'u' :: (hex4 m ++ rest))) := rfl
  rw [hu, parseUEscape_pair n m hn1 hn2 hm1 hm2 rest, hc, Char.ofNat_toNat]

/-- Decoding one encoded character from the front of the stream yields that
character back and continues with one unit of fuel consumed. -/
theorem parseStringBody_encodeChar (c : Char) (rest : List Char) (fuel : Nat) :
    parseStringBody (fuel + 1) (encodeChar c ++ rest) = mapCons c (parseStringBody fuel rest) := by
  by_cases h1 : c = '"'
  · subst h1
    rw [show encodeChar '"' = ['\\', '"'] from rfl, List.cons_append, List.cons_append,
      List.nil_append, psb_escape]
    rfl
  · by_cases h2 : c = '\\'
    · subst h2
      rw [show encodeChar '\\' = ['\\', '\\'] from rfl, List.cons_append, List.cons_append,
        List.nil_append, psb_escape]
      rfl
    · by_cases h3 : c.toNat = 8
      · have hc : c = Char.ofNat 8 := by rw [← h3, Char.ofNat_toNat]
        rw [encodeChar, if_neg h1, if_neg h2, if_pos h3, List.cons_append, List.cons_append,
          List.nil_append, psb_escape, hc]
        rfl
      · by_cases h4 : c.toNat = 9
        · have hc : c = Char.ofNat 9 := by rw [← h4, Char.ofNat_toNat]
          rw [encodeChar, if_neg h1, if_neg h2, if_neg h3, if_pos h4, List.cons_append,
            List.cons_append, List.nil_append, psb_escape, hc]
          rfl
        · by_cases h5 : c.toNat = 10
          · have hc : c = Char.ofNat 10 := by rw [← h5, Char.ofNat_toNat]
            rw [encodeChar, if_neg h1, if_neg h2, if_neg h3, if_neg h4, if_pos h5,
              List.cons_append, List.cons_append, List.nil_append, psb_escape, hc]
            rfl
          · by_cases h6 : c.toNat = 12
            · have hc : c = Char.ofNat 12 := by rw [← h6, Char.ofNat_toNat]
              rw [encodeChar, if_neg h1, if_neg h2, if_neg h3, if_neg h4, if_neg h5,
                if_pos h6, List.cons_append, List.cons_append, List.nil_append, psb_escape, hc]
              rfl
            · by_cases h7 : c.toNat = 13
              · have hc : c = Char.ofNat 13 := by rw [← h7, Char.ofNat_toNat]
                rw [encodeChar, if_neg h1, if_neg h2, if_neg h3, if_neg h4, if_neg h5,
                  if_neg h6, if_pos h7, List.cons_append, List.cons_append, List.nil_append,
                  psb_escape, hc]
                rfl
              · by_cases h8 : (c.toNat < 32 || 126 < c.toNat) = true
                · rw [encodeChar, if_neg h1, if_neg h2, if_neg h3, if_neg h4, if_neg h5,
                    if_neg h6, if_neg h7, if_pos h8]
                  by_cases h9 : c.toNat < 65536
                  · rw [if_pos h9]
                    have hok : c.toNat < 55296 ∨ 57343 < c.toNat := by
                      rcases char_range c with hr | hr
                      · exact Or.inl hr
                      · exact Or.inr hr.1
                    rw [List.cons_append, List.cons_append, psb_escape]
                    have hu : parseEscape ('u' :: (hex4 c.toNat ++ rest)) =
                        parseUEscape (hex4 c.toNat ++ rest) := rfl
                    rw [hu, parseUEscape_bmp c.toNat h9 hok rest, Char.ofNat_toNat]
                  · rw [if_neg h9]
                    rcases char_range c with hr | hr
                    · omega
                    · exact psb_encode_pair fuel rest c
                        (55296 + (c.toNat - 65536) / 1024)
                        (56320 + (c.toNat - 65536) % 1024)
                        (by omega) (by omega) (by omega)
                        (by
                          have hm : (c.toNat - 65536) % 1024 < 1024 :=
                            Nat.mod_lt _ (by omega)
                          omega)
                        (by omega)
                · rw [encodeChar, if_neg h1, if_neg h2, if_neg h3, if_neg h4, if_neg h5,
                    if_neg h6, if_neg h7, if_neg h8]
                  have hge : ¬ c.toNat < 32 := by
                    simp only [Bool.or_eq_true, decide_eq_true_eq, not_or] at h8
                    exact h8.1
                  rw [List.cons_append, List.nil_append]
                  exact psb_lit fuel c rest h1 h2 hge

/-- One encoded character has at least one character. -/
theorem encodeChar_length_pos (c : Char) : 1 ≤ (encodeChar c).length := by
  unfold encodeChar
  split_ifs <;> simp [hex4]

/-- The encoded body is at least as long as the source string. -/
theorem length_le_flatMap_encodeChar : ∀ cs : List Char,
    cs.length ≤ (cs.flatMap encodeChar).length := by
  intro cs
  induction cs with
  | nil => simp
  | cons c cs ih =>
    rw [List.flatMap_cons, List.length_append, List.length_cons]
    have := encodeChar_length_pos c
    omega

/-- The scanner decodes an encoded string body up to the closing quote. -/
theorem parseStringBody_encode :
    ∀ (cs : List Char) (fuel : Nat) (rest : List Char),
      parseStringBody (cs.length + (fuel + 1)) (cs.flatMap encodeChar ++ ('"' :: rest)) =
        some (cs, rest) := by
  intro cs
  induction cs with
  | nil =>
    intro fuel rest
    simp only [List.flatMap_nil, List.nil_append, List.length_nil, Nat.zero_add]
    exact psb_quote fuel rest
  | cons c cs ih =>
    intro fuel rest
    have hl : (c :: cs).length + (fuel + 1) = (cs.length + (fuel + 1)) + 1 := by
      rw [List.length_cons]; omega
    rw [hl, List.flatMap_cons, List.append_assoc, parseStringBody_encodeChar, ih fuel rest]
    rfl

/-- Fuel form used by the element parser: any fuel beyond the string length
suffices. -/
theorem parseStringBody_encode_ge (cs : List Char) (fuel : Nat) (rest : List Char)
    (h : cs.length + 1 ≤ fuel) :
    parseStringBody fuel (cs.flatMap encodeChar ++ ('"' :: rest)) = some (cs, rest) := by
  obtain ⟨k, hk⟩ : ∃ k, fuel = cs.length + (k + 1) := ⟨fuel - cs.length - 1, by omega⟩
  subst hk
  exact parseStringBody_encode cs k rest

/-- Whitespace skipping passes a non-whitespace head through. -/
theorem skipWs_cons_of_not_ws (c : Char) (l : List Char) (h : isJsonWs c = false) :
    skipWs (c :: l) = c :: l := by
  simp [skipWs, List.dropWhile_cons, h]

/-- Whitespace skipping drops a leading space. -/
theorem skipWs_space (l : List Char) : skipWs (' ' :: l) = skipWs l := by
  rw [skipWs, skipWs, List.dropWhile_cons, if_pos (by decide : isJsonWs ' ' = true)]

/-- The encoding of a nonempty tag list starts with a quote, so no whitespace
is skipped in front of it. -/
theorem skipWs_encodeItems (s : String) (ts : List String) (l : List Char) :
    skipWs (encodeItems (s :: ts) ++ l) = encodeItems (s :: ts) ++ l := by
  cases ts with
  | nil =>
    rw [show encodeItems [s] = encodeString s from rfl, encodeString,
      List.cons_append, List.cons_append]
    exact skipWs_cons_of_not_ws _ _ (by decide)
  | cons s2 ts =>
    rw [show encodeItems (s :: s2 :: ts) =
        encodeString s ++ ',' :: ' ' :: encodeItems (s2 :: ts) from rfl, encodeString,
      List.cons_append, List.cons_append, List.cons_append]
    exact skipWs_cons_of_not_ws _ _ (by decide)

/-- One element-parsing step ending at the closing bracket. -/
theorem parseElems_step_last (fuel : Nat) (body r s r2 : List Char)
    (hp : parseStringBody (body.length + 1) body = some (s, r))
    (hr : skipWs r = ']' :: r2) :
    parseElems (fuel + 1) ('"' :: body) = some ([String.mk s], r2) := by
  simp only [parseElems, hp, hr]

/-- One element-parsing step continuing after a comma. -/
theorem parseElems_step_cons (fuel : Nat) (body r s r2 : List Char)
    (hp : parseStringBody (body.length + 1) body = some (s, r))
    (hr : skipWs r = ',' :: r2) :
    parseElems (fuel + 1) ('"' :: body) =
      (match parseElems fuel (skipWs r2) with
       | some (ts, r3) => some (String.mk s :: ts, r3)
       | none => none) := by
  simp only [parseElems, hp, hr]

/-- The element parser decodes an encoded nonempty tag list up to the closing
bracket. -/
theorem parseElems_encode :
    ∀ (ts : List String) (s : String) (rest : List Char) (fuel : Nat),
      parseElems (ts.length + fuel + 1) (encodeItems (s :: ts) ++ (']' :: rest)) =
        some (s :: ts, rest) := by
  intro ts
  induction ts with
  | nil =>
    intro s rest fuel
    rw [show encodeItems [s] = encodeString s from rfl, encodeString, List.cons_append,
      List.cons_append, List.append_assoc,
      show (['"'] ++ (']' :: rest)) = '"' :: ']' :: rest from rfl]
    rw [show (List.length ([] : List String)) + fuel + 1 = fuel + 1 from by simp]
    rw [parseElems_step_last fuel _ (']' :: rest) s.data rest
      (parseStringBody_encode_ge s.data _ (']' :: rest)
        (by
          have := length_le_flatMap_encodeChar s.data
          simp only [List.length_append, List.length_cons]
          omega))
      (skipWs_cons_of_not_ws _ _ (by decide))]
  | cons s2 ts ih =>
    intro s rest fuel
    rw [show encodeItems (s :: s2 :: ts) =
        encodeString s ++ ',' :: ' ' :: encodeItems (s2 :: ts) from rfl, encodeString,
      List.cons_append, List.cons_append, List.cons_append, List.append_assoc,
      List.append_assoc,
      show (['"'] ++ ((',' :: ' ' :: encodeItems (s2 :: ts)) ++ (']' :: rest))) =
        '"' :: ',' :: ' ' :: (encodeItems (s2 :: ts) ++ (']' :: rest)) from rfl]
    rw [show (List.length (s2 :: ts)) + fuel + 1 = (ts.length + fuel + 1) + 1 from by
      rw [List.length_cons]; omega]
    rw [parseElems_step_cons (ts.length + fuel + 1) _
      (',' :: ' ' :: (encodeItems (s2 :: ts) ++ (']' :: rest))) s.data
      (' ' :: (encodeItems (s2 :: ts) ++ (']' :: rest)))
      (parseStringBody_encode_ge s.data _ _
        (by
          have := length_le_flatMap_encodeChar s.data
          simp only [List.length_append, List.length_cons]
          omega))
      (skipWs_cons_of_not_ws _ _ (by decide))]
    rw [skipWs_space, skipWs_encodeItems, ih s2 rest fuel]

/-- Fuel form of the element round trip. -/
theorem parseElems_encode_ge (ts : List String) (s : String) (rest : List Char) (fuel : Nat)
    (h : ts.length + 1 ≤ fuel) :
    parseElems fuel (encodeItems (s :: ts) ++ (']' :: rest)) = some (s :: ts, rest) := by
  obtain ⟨k, hk⟩ : ∃ k, fuel = ts.length + k + 1 := ⟨fuel - ts.length - 1, by omega⟩
  subst hk
  exact parseElems_encode ts s rest k

/-- The encoding of a nonempty tag list begins with a quote. -/
theorem encodeItems_cons_head (s : String) (ts : List String) :
    ∃ body, encodeItems (s :: ts) = '"' :: body := by
  cases ts with
  | nil => exact ⟨s.data.flatMap encodeChar ++ ['"'], rfl⟩
  | cons s2 ts =>
    exact ⟨(s.data.flatMap encodeChar ++ ['"']) ++ (',' :: ' ' :: encodeItems (s2 :: ts)), rfl⟩

/-- The encoded items are at least as many characters as there are further
tags. -/
theorem length_le_encodeItems : ∀ (ts : List String) (s : String),
    ts.length ≤ (encodeItems (s :: ts)).length := by
  intro ts
  induction ts with
  | nil => intro s; simp
  | cons s2 ts ih =>
    intro s
    rw [show encodeItems (s :: s2 :: ts) =
        encodeString s ++ ',' :: ' ' :: encodeItems (s2 :: ts) from rfl]
    have := ih s2
    simp only [List.length_append, List.length_cons]
    omega

/-- The top-level array parse resolved step by step. -/
theorem parseTagsArray_via (l r body r3 : List Char) (ts : List String)
    (h1 : skipWs l = '[' :: r)
    (h2 : skipWs r = '"' :: body)
    (hel : parseElems (l.length + 1) ('"' :: body) = some (ts, r3))
    (h3 : skipWs r3 = []) :
    parseTagsArray l = some ts := by
  simp only [parseTagsArray, h1, h2, reduceIte, hel, h3, List.isEmpty_nil, if_true]
  rw [if_neg (show ¬ ('"' : Char) = ']' by decide)]

/-- The array parser inverts the serializer. -/
theorem parseTagsArray_encode (ts : List String) :
    parseTagsArray (('[' :: encodeItems ts) ++ [']']) = some ts := by
  cases ts with
  | nil => rfl
  | cons s ts =>
    obtain ⟨body, hb⟩ := encodeItems_cons_head s ts
    refine parseTagsArray_via _ (encodeItems (s :: ts) ++ [']']) (body ++ [']']) []
      (s :: ts) ?_ ?_ ?_ rfl
    · rw [List.cons_append]
      exact skipWs_cons_of_not_ws _ _ (by decide)
    · rw [hb, List.cons_append]
      exact skipWs_cons_of_not_ws _ _ (by decide)
    · have hshape : ('"' : Char) :: (body ++ [']']) =
          encodeItems (s :: ts) ++ (']' :: ([] : List Char)) := by
        rw [hb, List.cons_append]
      rw [hshape]
      refine parseElems_encode_ge ts s [] _ ?_
      have h1 := length_le_encodeItems ts s
      simp only [List.length_append, List.length_cons]
      omega

/-- Claim C10: serializing a tag list and deserializing it returns the same
list, for every list of strings; the deserializer answers the empty string
with the empty list; it answers any input json.loads raises on with the
empty list instead of raising; and on a valid JSON document that is not a
string array it returns the parsed value unchanged, not the empty list. -/
theorem C10_tags_round_trip :
    (∀ ts : List String, json_to_tags (tags_to_json ts) = .tags ts)
    ∧ json_to_tags "" = .tags []
    ∧ (∀ s : String, loads s.data = .failure → json_to_tags s = .tags [])
    ∧ (∀ s : String, loads s.data = .other → json_to_tags s = .other) := by
  refine ⟨?_, rfl, ?_, ?_⟩
  · intro ts
    have hd : (tags_to_json ts).data = ('[' :: encodeItems ts) ++ [']'] := rfl
    have hne : ((('[' :: encodeItems ts) ++ [']']).isEmpty) = false := by
      rw [List.cons_append]
      rfl
    simp only [json_to_tags, hd, hne, Bool.false_eq_true, if_false, loads,
      parseTagsArray_encode ts]
  · intro s hp
    by_cases he : s.data.isEmpty = true
    · simp only [json_to_tags, he, if_true]
    · simp only [json_to_tags, he, Bool.false_eq_true, if_false, hp]
  · intro s hp
    have he : s.data.isEmpty = false := by
      cases hs : s.data with
      | nil =>
        rw [hs] at hp
        exact absurd hp (by decide)
      | cons a l => rfl
    simp only [json_to_tags, he, Bool.false_eq_true, if_false, hp]

/-- Claim C10 witness: the round trip applied to a concrete tag list; the
deserializer applied to a concrete unparseable value, answered with []; and
applied to three valid non-string-array documents — null, a number array, an
empty object — whose parsed values are passed through, not collapsed to []. -/
theorem C10_tags_round_trip_witness :
    json_to_tags (tags_to_json ["alpha", "beta tag"]) = .tags ["alpha", "beta tag"]
    ∧ json_to_tags "corrupted tags" = .tags []
    ∧ json_to_tags "null" = .other
    ∧ json_to_tags "[1, 2]" = .other
    ∧ json_to_tags "\x7b\x7d" = .other :=
  ⟨C10_tags_round_trip.1 ["alpha", "beta tag"],
   C10_tags_round_trip.2.2.1 "corrupted tags" (by decide),
   C10_tags_round_trip.2.2.2 "null" (by decide),
   C10_tags_round_trip.2.2.2 "[1, 2]" (by decide),
   C10_tags_round_trip.2.2.2 "\x7b\x7d" (by decide)⟩

end RagService
